import Mathlib

/-!
Shallow embedding of the tracklet indexing, temporal subsampling, frame
building and caching logic of the class KITTIFull in
src/datasets/kitti_full.py, together with theorems settling the claims of
the specification about this code.

Machine integers of the source are modelled as Nat, rational sensor data as
Rat, numpy arrays as lists of rows, and raising Python code as
Option-valued functions (none models a raised exception).
-/

namespace HVTrack

/-! ## Index boundaries (KITTIFull.__init__, num_frames, get_tracklet_frame_id) -/

/-- Embeds the boundary-building loop of KITTIFull.__init__: running over the
per-tracklet frame counts with accumulator acc (initially 0), each step
records the current accumulator as the start id and the accumulator plus the
count as the end id.  Returns (tracklet_st_frame_id, tracklet_ed_frame_id). -/
def buildBoundaries : List Nat → Nat → List Nat × List Nat
  | [], _ => ([], [])
  | n :: rest, acc =>
    let p := buildBoundaries rest (acc + n)
    (acc :: p.1, (acc + n) :: p.2)

/-- The list self.tracklet_st_frame_id computed in KITTIFull.__init__. -/
def tracklet_st_frame_id (lens : List Nat) : List Nat :=
  (buildBoundaries lens 0).1

/-- The list self.tracklet_ed_frame_id computed in KITTIFull.__init__. -/
def tracklet_ed_frame_id (lens : List Nat) : List Nat :=
  (buildBoundaries lens 0).2

/-- KITTIFull.num_frames, i.e. self.tracklet_ed_frame_id[-1].  Indexing an
empty Python list raises, hence the Option result. -/
def num_frames (lens : List Nat) : Option Nat :=
  (tracklet_ed_frame_id lens).getLast?

/-- The value bisect.bisect_right(a, x) computes on a sorted list a: the
number of leading elements that are at most x, i.e. the first position whose
element exceeds x. -/
def bisect_right (a : List Nat) (x : Nat) : Nat :=
  match a with
  | [] => 0
  | y :: rest => if x < y then 0 else bisect_right rest x + 1

/-- KITTIFull.get_tracklet_frame_id: bisect_right over the end boundaries,
then the assert st[t] <= idx < ed[t], then (t, idx - st[t]).  A failing
assert or an out-of-range list access raises, modelled by none. -/
def get_tracklet_frame_id (lens : List Nat) (idx : Nat) : Option (Nat × Nat) :=
  match (tracklet_st_frame_id lens)[bisect_right (tracklet_ed_frame_id lens) idx]?,
      (tracklet_ed_frame_id lens)[bisect_right (tracklet_ed_frame_id lens) idx]? with
  | some s, some e =>
    if s ≤ idx ∧ idx < e then
      some (bisect_right (tracklet_ed_frame_id lens) idx, idx - s)
    else none
  | _, _ => none

/-! ## Temporal subsampling (KITTIFull._build_tracklet_annotations) -/

variable {α : Type*}

/-- Stepper for a Python extended slice with stride m + 1: the counter c
holds how many elements must still be skipped before the next kept one. -/
def strideAux (c m : Nat) : List α → List α
  | [] => []
  | a :: rest =>
    match c with
    | 0 => a :: strideAux m m rest
    | c2 + 1 => strideAux c2 m rest

/-- The Python slice l[p::k] for a stride k (meaningful for 1 <= k): drop the
first p elements, then keep every k-th element. -/
def pyslice (l : List α) (p k : Nat) : List α :=
  strideAux 0 (k - 1) (l.drop p)

/-- The fixed-interval branch of KITTIFull._build_tracklet_annotations:
for i in range(min(len(group), k)) append group[i::k]. -/
def fixedIntervalTracklets (g : List α) (k : Nat) : List (List α) :=
  (List.range (min g.length k)).map (fun i => pyslice g i k)

/-- The branch of KITTIFull._build_tracklet_annotations taken when
preload_interval equals the literal string "all": the train split loops over
the intervals 1, 2, 3, 5, 10 while any other split uses the single interval
5, each interval running the same range(min(len, interval)) phase loop. -/
def subsampleAll (split : String) (g : List α) : List (List α) :=
  if split = "train" then
    (([1, 2, 3, 5, 10] : List Nat).map (fun interval =>
      (List.range (min g.length interval)).map (fun i => pyslice g i interval))).flatten
  else
    (List.range (min g.length 5)).map (fun i => pyslice g i 5)

/-- The interval set the specification assigns to each split role in
exhaustive subsampling mode. -/
def exhaustiveIntervals (split : String) : List Nat :=
  if split = "train" then [1, 2, 3, 5, 10] else [5]

/-! ## Frame building (KITTIFull._build_frame) -/

/-- The coordinate mode after the assert in KITTIFull._build_frame has
accepted it: "camera" or "velodyne". -/
inductive CoordinateMode
  | camera
  | velodyne
deriving DecidableEq

/-- The fields of one annotation row that KITTIFull._build_frame reads.
Sensor and geometry quantities are modelled as rationals. -/
structure FrameAnno where
  scene : Nat
  frame : Nat
  x : ℚ
  y : ℚ
  z : ℚ
  height : ℚ
  width : ℚ
  length : ℚ
  rotation_y : ℚ
deriving DecidableEq

/-- Symbolic angle argument of one Quaternion constructor call in
KITTIFull._build_frame: a radians value taken from the record, the constant
np.pi / 2 radians, or a degrees value. -/
inductive AngleSpec
  | radians (q : ℚ)
  | radiansPiDiv2
  | degrees (d : ℚ)
deriving DecidableEq

/-- One Quaternion(axis=..., angle) factor; an orientation is the ordered
list of the factors of the quaternion product, left to right. -/
structure QuatStep where
  axisX : Int
  axisY : Int
  axisZ : Int
  angle : AngleSpec
deriving DecidableEq

/-- A 3D point or size triple. -/
structure V3 where
  x : ℚ
  y : ℚ
  z : ℚ
deriving DecidableEq

/-- The oriented 3D bounding box built by KITTIFull._build_frame: center,
extents (width, length, height) and the symbolic orientation. -/
structure BoundingBox where
  center : V3
  wlh : V3
  orientation : List QuatStep
deriving DecidableEq

/-- A point cloud as the list of rows of the numpy array: four rows for a
loaded cloud, three rows for the placeholder. -/
abbrev PCloud := List (List ℚ)

/-- The fallback PointCloud(np.array([[0, 0, 0]]).T) of the except branch:
three coordinate rows holding the single point at the origin, no intensity
row. -/
def placeholder_pcd : PCloud := [[0], [0], [0]]

/-- The outcome of np.fromfile on the .bin path of the frame: missing when
the file is absent or unreadable, otherwise the flat little-endian float
buffer. -/
inductive RawPcd
  | missing
  | bytes (data : List ℚ)
deriving DecidableEq

/-- np.fromfile(..).reshape(-1, 4).T: row r of the transposed array is the
stride-4 slice data[r::4].  Meaningful only when the length of the buffer is
divisible by 4; otherwise reshape raises. -/
def reshapeT (data : List ℚ) : PCloud :=
  [pyslice data 0 4, pyslice data 1 4, pyslice data 2 4, pyslice data 3 4]

/-- The homogeneous sensor-to-camera matrix. -/
abbrev Mat4 := Matrix (Fin 4) (Fin 4) ℚ

/-- np.vstack((calib["Tr_velo_cam"], np.array([0, 0, 0, 1]))): the 3x4
calibration matrix extended with the homogeneous row. -/
def vstack_homog (tr : Matrix (Fin 3) (Fin 4) ℚ) : Mat4 :=
  Matrix.of fun i j =>
    if h : (i : Nat) < 3 then tr ⟨i, h⟩ j else if j = 3 then 1 else 0

/-- np.linalg.inv on an invertible rational 4x4 matrix, via the adjugate. -/
def inv4 (M : Mat4) : Mat4 := M.det⁻¹ • M.adjugate

/-- The dictionary KITTIFull._build_frame returns for one record. -/
structure Frame where
  pcd : PCloud
  bbox : BoundingBox
  anno : FrameAnno
deriving DecidableEq

/-- The try block of KITTIFull._build_frame that loads the point cloud,
together with its except fallback: a missing file or a buffer whose length
is not a multiple of 4 (a failing reshape) yields the untouched placeholder;
a successful load in camera mode is transformed by the sensor-to-camera
matrix.  The external routine PointCloud.transform is the parameter tf. -/
def load_pcd (tf : Mat4 → PCloud → PCloud) (mode : CoordinateMode) (M : Mat4) :
    RawPcd → PCloud
  | .missing => placeholder_pcd
  | .bytes data =>
    if data.length % 4 = 0 then
      match mode with
      | .camera => tf M (reshapeT data)
      | .velodyne => reshapeT data
    else placeholder_pcd

/-- The bounding-box section of KITTIFull._build_frame, one case per
coordinate mode.  tr is the Tr_velo_cam calibration matrix of the scene of
the record.  In velodyne mode, np.linalg.inv raises on a singular
homogeneous matrix, modelled by none; otherwise the homogeneous camera
center (x, y - height/2, z, 1) is carried to sensor coordinates by the
inverse of the sensor-to-camera matrix. -/
def build_bbox : CoordinateMode → Matrix (Fin 3) (Fin 4) ℚ → FrameAnno → Option BoundingBox
  | .camera, _, anno =>
    some { center := ⟨anno.x, anno.y - anno.height / 2, anno.z⟩,
           wlh := ⟨anno.width, anno.length, anno.height⟩,
           orientation := [⟨0, 1, 0, .radians anno.rotation_y⟩,
                           ⟨1, 0, 0, .radiansPiDiv2⟩] }
  | .velodyne, tr, anno =>
    if (vstack_homog tr).det = 0 then none
    else
      some { center := ⟨(inv4 (vstack_homog tr)).mulVec ![anno.x, anno.y - anno.height / 2, anno.z, 1] 0, (inv4 (vstack_homog tr)).mulVec ![anno.x, anno.y - anno.height / 2, anno.z, 1] 1, (inv4 (vstack_homog tr)).mulVec ![anno.x, anno.y - anno.height / 2, anno.z, 1] 2⟩,
             wlh := ⟨anno.width, anno.length, anno.height⟩,
             orientation := [⟨0, 0, -1, .radians anno.rotation_y⟩,
                             ⟨0, 0, -1, .degrees 90⟩] }

/-- KITTIFull._build_frame: build the bounding box for the configured mode,
run the try block that loads the point cloud, and return the frame
dictionary.  tf models the external PointCloud.transform routine. -/
def build_frame (tf : Mat4 → PCloud → PCloud) (mode : CoordinateMode)
    (tr : Matrix (Fin 3) (Fin 4) ℚ) (anno : FrameAnno) (raw : RawPcd) :
    Option Frame :=
  match build_bbox mode tr anno with
  | none => none
  | some bbox =>
    some { pcd := load_pcd tf mode (vstack_homog tr) raw, bbox := bbox,
           anno := anno }

/-! ## Materialization and frame access (KITTIFull.__init__, get_frame) -/

/-- The inner frame loop of the cache-miss branch of KITTIFull.__init__:
build every frame of one tracklet in order; a raising build aborts the whole
construction. -/
def build_frames (tf : Mat4 → PCloud → PCloud) (mode : CoordinateMode)
    (tr : Matrix (Fin 3) (Fin 4) ℚ) :
    List (FrameAnno × RawPcd) → Option (List Frame)
  | [] => some []
  | (anno, raw) :: rest =>
    match build_frame tf mode tr anno raw, build_frames tf mode tr rest with
    | some fr, some frs => some (fr :: frs)
    | _, _ => none

/-- One entry of the cached tracklets list: the merged template point cloud
and the stored frames. -/
structure TrackletMat where
  comp_template_pcd : PCloud
  frames : List Frame
deriving DecidableEq

/-- One iteration of the cache-miss materialization loop of
KITTIFull.__init__: build all frames, merge the template from the still
uncropped frame clouds, then crop the stored clouds in place when
preload_offset > 0.  The parameters merge and crop model the external
routines merge_template_pcds and crop_pcd_axis_aligned. -/
def build_tracklet (tf : Mat4 → PCloud → PCloud)
    (crop : PCloud → BoundingBox → ℚ → PCloud)
    (merge : List PCloud → List BoundingBox → ℚ → ℚ → PCloud)
    (mode : CoordinateMode) (tr : Matrix (Fin 3) (Fin 4) ℚ)
    (model_offset model_scale preload_offset : ℚ)
    (inputs : List (FrameAnno × RawPcd)) : Option TrackletMat :=
  match build_frames tf mode tr inputs with
  | none => none
  | some frames =>
    let tmpl := merge (frames.map (fun fr => fr.pcd))
      (frames.map (fun fr => fr.bbox)) model_offset model_scale
    let frames2 :=
      if 0 < preload_offset then
        frames.map (fun fr => { fr with pcd := crop fr.pcd fr.bbox preload_offset })
      else frames
    some { comp_template_pcd := tmpl, frames := frames2 }

/-- The cached branch of KITTIFull.get_frame: return the stored frame of the
materialized tracklet. -/
def get_frame_cached (mat : TrackletMat) (frame_id : Nat) : Option Frame :=
  mat.frames[frame_id]?

/-- The uncached branch of KITTIFull.get_frame: build the frame on demand
and apply the same optional crop step. -/
def get_frame_uncached (tf : Mat4 → PCloud → PCloud)
    (crop : PCloud → BoundingBox → ℚ → PCloud) (mode : CoordinateMode)
    (tr : Matrix (Fin 3) (Fin 4) ℚ) (preload_offset : ℚ)
    (input : FrameAnno × RawPcd) : Option Frame :=
  match build_frame tf mode tr input.1 input.2 with
  | none => none
  | some fr =>
    some (if 0 < preload_offset then
        { fr with pcd := crop fr.pcd fr.bbox preload_offset }
      else fr)

/-- The crop offset KITTIFull.__init__ actually stores:
cfg.preload_offset if split_type == "train" else -1. -/
def preload_offset_eff (split : String) (cfg_offset : ℚ) : ℚ :=
  if split = "train" then cfg_offset else -1

/-- An identity-like calibration matrix, used by concrete witnesses. -/
def trId : Matrix (Fin 3) (Fin 4) ℚ :=
  Matrix.of fun i j => if (i : Nat) = (j : Nat) then 1 else 0

/-- A concrete annotation record with rotation_y = 0, used by witnesses. -/
def anno0 : FrameAnno :=
  { scene := 0, frame := 0, x := 1, y := 2, z := 3,
    height := 4, width := 5, length := 6, rotation_y := 0 }

/-- The camera-mode frame built for anno0 when the point-cloud file is
missing, used by concrete witnesses. -/
def frame0 : Frame :=
  { pcd := placeholder_pcd,
    bbox := { center := ⟨anno0.x, anno0.y - anno0.height / 2, anno0.z⟩,
              wlh := ⟨anno0.width, anno0.length, anno0.height⟩,
              orientation := [⟨0, 1, 0, AngleSpec.radians anno0.rotation_y⟩,
                              ⟨1, 0, 0, AngleSpec.radiansPiDiv2⟩] },
    anno := anno0 }

/-! ## Supporting lemmas on the boundary lists -/

theorem buildBoundaries_fst_length (lens : List Nat) (acc : Nat) :
    (buildBoundaries lens acc).1.length = lens.length := by
  induction lens generalizing acc with
  | nil => rfl
  | cons n rest ih => simp [buildBoundaries, ih]

theorem buildBoundaries_snd_length (lens : List Nat) (acc : Nat) :
    (buildBoundaries lens acc).2.length = lens.length := by
  induction lens generalizing acc with
  | nil => rfl
  | cons n rest ih => simp [buildBoundaries, ih]

theorem buildBoundaries_fst_get (lens : List Nat) (acc i : Nat) (h : i < lens.length) :
    (buildBoundaries lens acc).1[i]? = some (acc + (lens.take i).sum) := by
  induction lens generalizing acc i with
  | nil => simp at h
  | cons n rest ih =>
    cases i with
    | zero => simp [buildBoundaries]
    | succ j =>
      have hj : j < rest.length := by simpa using h
      have h2 := ih (acc + n) j hj
      simp [buildBoundaries, h2, Nat.add_assoc]

theorem buildBoundaries_snd_get (lens : List Nat) (acc i : Nat) (h : i < lens.length) :
    (buildBoundaries lens acc).2[i]? = some (acc + (lens.take (i + 1)).sum) := by
  induction lens generalizing acc i with
  | nil => simp at h
  | cons n rest ih =>
    cases i with
    | zero => simp [buildBoundaries]
    | succ j =>
      have hj : j < rest.length := by simpa using h
      have h2 := ih (acc + n) j hj
      simp [buildBoundaries, h2, Nat.add_assoc]

theorem take_sum_mono (lens : List Nat) {i j : Nat} (h : i ≤ j) :
    (lens.take i).sum ≤ (lens.take j).sum := by
  have h2 : lens.take j = lens.take i ++ (lens.drop i).take (j - i) := by
    rw [← List.take_add]
    congr 1
    omega
  rw [h2, List.sum_append]
  omega

theorem take_sum_succ (lens : List Nat) (t m : Nat) (h : lens[t]? = some m) :
    (lens.take (t + 1)).sum = (lens.take t).sum + m := by
  induction lens generalizing t with
  | nil => simp at h
  | cons n rest ih =>
    cases t with
    | zero =>
      simp at h
      simp [h]
    | succ j =>
      have h2 : rest[j]? = some m := by simpa using h
      have h3 := ih j h2
      simp [h3]
      omega

theorem num_frames_eq_sum (lens : List Nat) (h : lens ≠ []) :
    num_frames lens = some lens.sum := by
  have hL : 0 < lens.length := List.length_pos.mpr h
  have hlen : (tracklet_ed_frame_id lens).length = lens.length :=
    buildBoundaries_snd_length lens 0
  have hget := buildBoundaries_snd_get lens 0 (lens.length - 1) (by omega)
  have hidx : lens.length - 1 + 1 = lens.length := by omega
  rw [hidx] at hget
  rw [List.take_length] at hget
  rw [num_frames, List.getLast?_eq_getElem?, hlen, tracklet_ed_frame_id, hget]
  simp

/-! ## Supporting lemmas on bisect_right -/

theorem bisect_right_le_length (a : List Nat) (x : Nat) :
    bisect_right a x ≤ a.length := by
  induction a with
  | nil => simp [bisect_right]
  | cons y rest ih =>
    simp only [bisect_right, List.length_cons]
    split
    · omega
    · omega

theorem bisect_right_lt_imp (a : List Nat) (x : Nat) :
    ∀ i, i < bisect_right a x → ∃ v, a[i]? = some v ∧ v ≤ x := by
  induction a with
  | nil => simp [bisect_right]
  | cons y rest ih =>
    intro i hi
    by_cases hxy : x < y
    · simp [bisect_right, hxy] at hi
    · cases i with
      | zero => exact ⟨y, by simp, by omega⟩
      | succ j =>
        have hj : j < bisect_right rest x := by
          simp [bisect_right, hxy] at hi
          omega
        obtain ⟨v, hv, hvx⟩ := ih j hj
        exact ⟨v, by simpa using hv, hvx⟩

theorem bisect_right_get (a : List Nat) (x : Nat) (h : bisect_right a x < a.length) :
    ∃ v, a[bisect_right a x]? = some v ∧ x < v := by
  induction a with
  | nil => simp at h
  | cons y rest ih =>
    by_cases hxy : x < y
    · exact ⟨y, by simp [bisect_right, hxy], hxy⟩
    · have h2 : bisect_right rest x < rest.length := by
        simp [bisect_right, hxy] at h
        omega
      obtain ⟨v, hv, hvx⟩ := ih h2
      refine ⟨v, ?_, hvx⟩
      simp [bisect_right, hxy, hv]

theorem bisect_right_eq_of (a : List Nat) (x : Nat) :
    ∀ t, t ≤ a.length →
      (∀ i, i < t → ∀ v, a[i]? = some v → v ≤ x) →
      (∀ v, a[t]? = some v → x < v) →
      bisect_right a x = t := by
  induction a with
  | nil =>
    intro t ht _ _
    simp at ht
    simp [bisect_right, ht]
  | cons y rest ih =>
    intro t ht hlt hge
    cases t with
    | zero =>
      have h1 : x < y := hge y (by simp)
      simp [bisect_right, h1]
    | succ s =>
      have hy : y ≤ x := hlt 0 (by omega) y (by simp)
      have h1 : ¬ x < y := by omega
      have h2 := ih s (by simpa using ht)
        (fun i hi v hv => hlt (i + 1) (by omega) v (by simpa using hv))
        (fun v hv => hge v (by simpa using hv))
      simp [bisect_right, h1, h2]

/-! ## Characterization of the global index resolver -/

theorem get_tracklet_frame_id_eq_iff (lens : List Nat) (idx t f : Nat) :
    get_tracklet_frame_id lens idx = some (t, f) ↔
      t < lens.length ∧ (lens.take t).sum ≤ idx ∧ idx < (lens.take (t + 1)).sum ∧
        f = idx - (lens.take t).sum := by
  have hstlen : (tracklet_st_frame_id lens).length = lens.length :=
    buildBoundaries_fst_length lens 0
  have hedlen : (tracklet_ed_frame_id lens).length = lens.length :=
    buildBoundaries_snd_length lens 0
  constructor
  · intro h
    by_cases hb : bisect_right (tracklet_ed_frame_id lens) idx < lens.length
    · have hst : (tracklet_st_frame_id lens)[bisect_right (tracklet_ed_frame_id lens) idx]?
          = some (0 + (lens.take (bisect_right (tracklet_ed_frame_id lens) idx)).sum) :=
        buildBoundaries_fst_get lens 0 _ hb
      have hed : (tracklet_ed_frame_id lens)[bisect_right (tracklet_ed_frame_id lens) idx]?
          = some (0 + (lens.take (bisect_right (tracklet_ed_frame_id lens) idx + 1)).sum) :=
        buildBoundaries_snd_get lens 0 _ hb
      rw [get_tracklet_frame_id] at h
      rw [hst, hed] at h
      simp only [Nat.zero_add] at h hst hed
      by_cases hcond : (lens.take (bisect_right (tracklet_ed_frame_id lens) idx)).sum ≤ idx ∧
          idx < (lens.take (bisect_right (tracklet_ed_frame_id lens) idx + 1)).sum
      · rw [if_pos hcond] at h
        have h2 := Option.some.inj h
        have ht : bisect_right (tracklet_ed_frame_id lens) idx = t := congrArg Prod.fst h2
        have hf : idx - (lens.take (bisect_right (tracklet_ed_frame_id lens) idx)).sum = f :=
          congrArg Prod.snd h2
        rw [ht] at hcond hf
        exact ⟨by omega, hcond.1, hcond.2, hf.symm⟩
      · rw [if_neg hcond] at h
        exact absurd h (by simp)
    · have hnone : (tracklet_st_frame_id lens)[bisect_right (tracklet_ed_frame_id lens) idx]?
          = none := by
        rw [List.getElem?_eq_none_iff]
        omega
      rw [get_tracklet_frame_id, hnone] at h
      exact absurd h (by simp)
  · rintro ⟨ht, h1, h2, hf⟩
    have hbr : bisect_right (tracklet_ed_frame_id lens) idx = t := by
      apply bisect_right_eq_of
      · omega
      · intro i hi v hv
        have hilt : i < lens.length := by omega
        have hed := buildBoundaries_snd_get lens 0 i hilt
        rw [tracklet_ed_frame_id] at hv
        rw [hed] at hv
        have hv2 : v = (lens.take (i + 1)).sum := by
          have := Option.some.inj hv
          omega
        have hmono : (lens.take (i + 1)).sum ≤ (lens.take t).sum :=
          take_sum_mono lens (by omega)
        omega
      · intro v hv
        have hed := buildBoundaries_snd_get lens 0 t ht
        rw [tracklet_ed_frame_id] at hv
        rw [hed] at hv
        have hv2 : v = (lens.take (t + 1)).sum := by
          have := Option.some.inj hv
          omega
        omega
    have hst := buildBoundaries_fst_get lens 0 t ht
    have hed := buildBoundaries_snd_get lens 0 t ht
    rw [get_tracklet_frame_id, hbr]
    rw [tracklet_st_frame_id, tracklet_ed_frame_id, hst, hed]
    simp only [Nat.zero_add]
    rw [if_pos ⟨h1, h2⟩]
    rw [hf]

theorem exists_block (lens : List Nat) (idx : Nat) (h : idx < lens.sum) :
    ∃ t, t < lens.length ∧ (lens.take t).sum ≤ idx ∧ idx < (lens.take (t + 1)).sum := by
  induction lens generalizing idx with
  | nil => simp at h
  | cons n rest ih =>
    by_cases hn : idx < n
    · refine ⟨0, by simp, by simp, ?_⟩
      simpa using hn
    · have h2 : idx - n < rest.sum := by
        simp at h
        omega
      obtain ⟨t, ht, h3, h4⟩ := ih (idx - n) h2
      refine ⟨t + 1, by simpa using ht, ?_, ?_⟩
      · simp only [List.take_succ_cons, List.sum_cons]
        omega
      · simp only [List.take_succ_cons, List.sum_cons]
        omega

/-! ## Claim theorems: indexing -/

/-- C2: for every constructed dataset the boundary sequences satisfy
start[0] = 0, start[i] = end[i-1] for i >= 1, and end[i] = start[i] + len(i)
for every i; consequently the sum of the per-tracklet frame counts equals
num_frames(), the last end boundary. -/
theorem c2_boundary_invariants (lens : List Nat) (h : lens ≠ []) :
    (tracklet_st_frame_id lens)[0]? = some 0 ∧
    (∀ i, i + 1 < lens.length →
      (tracklet_st_frame_id lens)[i + 1]? = (tracklet_ed_frame_id lens)[i]?) ∧
    (∀ i, i < lens.length → ∃ s e m,
      (tracklet_st_frame_id lens)[i]? = some s ∧
      (tracklet_ed_frame_id lens)[i]? = some e ∧
      lens[i]? = some m ∧ e = s + m ∧ e - s = m) ∧
    num_frames lens = some lens.sum := by
  have hL : 0 < lens.length := List.length_pos.mpr h
  refine ⟨?_, ?_, ?_, num_frames_eq_sum lens h⟩
  · have h0 := buildBoundaries_fst_get lens 0 0 hL
    rw [tracklet_st_frame_id, h0]
    simp
  · intro i hi
    have hst := buildBoundaries_fst_get lens 0 (i + 1) hi
    have hed := buildBoundaries_snd_get lens 0 i (by omega)
    rw [tracklet_st_frame_id, hst, tracklet_ed_frame_id, hed]
  · intro i hi
    have hst := buildBoundaries_fst_get lens 0 i hi
    have hed := buildBoundaries_snd_get lens 0 i hi
    have hm : lens[i]? = some lens[i] := List.getElem?_eq_getElem hi
    have hsucc := take_sum_succ lens i lens[i] hm
    refine ⟨(lens.take i).sum, (lens.take (i + 1)).sum, lens[i], ?_, ?_, hm, by omega, by omega⟩
    · rw [tracklet_st_frame_id, hst]
      simp
    · rw [tracklet_ed_frame_id, hed]
      simp

/-- C2 witness at the concrete dataset with tracklet lengths [2, 3]. -/
theorem c2_boundary_invariants_witness :
    ([2, 3] : List Nat) ≠ [] ∧
    ((tracklet_st_frame_id [2, 3])[0]? = some 0 ∧
    (∀ i, i + 1 < ([2, 3] : List Nat).length →
      (tracklet_st_frame_id [2, 3])[i + 1]? = (tracklet_ed_frame_id [2, 3])[i]?) ∧
    (∀ i, i < ([2, 3] : List Nat).length → ∃ s e m,
      (tracklet_st_frame_id [2, 3])[i]? = some s ∧
      (tracklet_ed_frame_id [2, 3])[i]? = some e ∧
      ([2, 3] : List Nat)[i]? = some m ∧ e = s + m ∧ e - s = m) ∧
    num_frames [2, 3] = some ([2, 3] : List Nat).sum) :=
  ⟨by simp, c2_boundary_invariants [2, 3] (by simp)⟩

/-- C1: for every constructed dataset and every global index g below
num_frames(), get_tracklet_frame_id returns the pair (t, f) with t the
smallest index whose end boundary exceeds g and f = g - start[t]; this pair
satisfies start[t] <= g < end[t] and f < frames in tracklet t, and the
mapping is a bijection onto the set of valid (tracklet, frame) pairs. -/
theorem c1_resolve_bijection (lens : List Nat) (hpos : ∀ n ∈ lens, 0 < n)
    (N : Nat) (hN : num_frames lens = some N) :
    (∀ g, g < N → ∃ t f, get_tracklet_frame_id lens g = some (t, f) ∧
      t < lens.length ∧
      (∃ s e, (tracklet_st_frame_id lens)[t]? = some s ∧
        (tracklet_ed_frame_id lens)[t]? = some e ∧ s ≤ g ∧ g < e ∧ f = g - s) ∧
      (∀ i v, i < t → (tracklet_ed_frame_id lens)[i]? = some v → v ≤ g) ∧
      (∃ m, lens[t]? = some m ∧ f < m)) ∧
    (∀ g1 g2, g1 < N → g2 < N →
      get_tracklet_frame_id lens g1 = get_tracklet_frame_id lens g2 → g1 = g2) ∧
    (∀ t f m, lens[t]? = some m → f < m →
      ∃ g, g < N ∧ get_tracklet_frame_id lens g = some (t, f)) := by
  have hne : lens ≠ [] := by
    intro hcon
    rw [hcon] at hN
    simp [num_frames, tracklet_ed_frame_id, buildBoundaries] at hN
  have hsum : N = lens.sum := by
    have := num_frames_eq_sum lens hne
    rw [hN] at this
    exact Option.some.inj this
  subst hsum
  have main : ∀ g, g < lens.sum → ∃ t f, get_tracklet_frame_id lens g = some (t, f) ∧
      t < lens.length ∧
      (∃ s e, (tracklet_st_frame_id lens)[t]? = some s ∧
        (tracklet_ed_frame_id lens)[t]? = some e ∧ s ≤ g ∧ g < e ∧ f = g - s) ∧
      (∀ i v, i < t → (tracklet_ed_frame_id lens)[i]? = some v → v ≤ g) ∧
      (∃ m, lens[t]? = some m ∧ f < m) := by
    intro g hg
    obtain ⟨t, ht, h1, h2⟩ := exists_block lens g hg
    refine ⟨t, g - (lens.take t).sum, ?_, ht, ?_, ?_, ?_⟩
    · exact (get_tracklet_frame_id_eq_iff lens g t _).mpr ⟨ht, h1, h2, rfl⟩
    · refine ⟨(lens.take t).sum, (lens.take (t + 1)).sum, ?_, ?_, h1, h2, rfl⟩
      · rw [tracklet_st_frame_id, buildBoundaries_fst_get lens 0 t ht]
        simp
      · rw [tracklet_ed_frame_id, buildBoundaries_snd_get lens 0 t ht]
        simp
    · intro i v hi hv
      rw [tracklet_ed_frame_id, buildBoundaries_snd_get lens 0 i (by omega)] at hv
      have hveq : v = (lens.take (i + 1)).sum := by
        have := Option.some.inj hv
        omega
      have hmono : (lens.take (i + 1)).sum ≤ (lens.take t).sum :=
        take_sum_mono lens (by omega)
      omega
    · have hm : lens[t]? = some lens[t] := List.getElem?_eq_getElem ht
      have hsucc := take_sum_succ lens t lens[t] hm
      exact ⟨lens[t], hm, by omega⟩
  refine ⟨main, ?_, ?_⟩
  · intro g1 g2 hg1 hg2 heq
    obtain ⟨t1, f1, hr1, -, ⟨s1, e1, hs1, he1, hle1, hlt1, hf1⟩, -, -⟩ := main g1 hg1
    obtain ⟨t2, f2, hr2, -, ⟨s2, e2, hs2, he2, hle2, hlt2, hf2⟩, -, -⟩ := main g2 hg2
    rw [hr1, hr2] at heq
    have h2 := Option.some.inj heq
    have ht12 : t1 = t2 := congrArg Prod.fst h2
    have hf12 : f1 = f2 := congrArg Prod.snd h2
    rw [ht12] at hs1
    rw [hs1] at hs2
    have hseq : s1 = s2 := Option.some.inj hs2
    omega
  · intro t f m hm hf
    have ht : t < lens.length := by
      rcases List.getElem?_eq_some_iff.mp hm with ⟨hlt, -⟩
      exact hlt
    have hmval : lens[t] = m := by
      have := List.getElem?_eq_getElem ht
      rw [hm] at this
      exact (Option.some.inj this).symm
    have hsucc := take_sum_succ lens t m hm
    refine ⟨(lens.take t).sum + f, ?_, ?_⟩
    · have hmono : (lens.take (t + 1)).sum ≤ (lens.take lens.length).sum :=
        take_sum_mono lens (by omega)
      rw [List.take_length] at hmono
      omega
    · exact (get_tracklet_frame_id_eq_iff lens _ t f).mpr
        ⟨ht, by omega, by omega, by omega⟩

/-- C1 witness at the concrete dataset with tracklet lengths [2, 3] and
total frame count 5. -/
theorem c1_resolve_bijection_witness :
    (∀ n ∈ ([2, 3] : List Nat), 0 < n) ∧ num_frames [2, 3] = some 5 ∧
    ((∀ g, g < 5 → ∃ t f, get_tracklet_frame_id [2, 3] g = some (t, f) ∧
      t < ([2, 3] : List Nat).length ∧
      (∃ s e, (tracklet_st_frame_id [2, 3])[t]? = some s ∧
        (tracklet_ed_frame_id [2, 3])[t]? = some e ∧ s ≤ g ∧ g < e ∧ f = g - s) ∧
      (∀ i v, i < t → (tracklet_ed_frame_id [2, 3])[i]? = some v → v ≤ g) ∧
      (∃ m, ([2, 3] : List Nat)[t]? = some m ∧ f < m)) ∧
    (∀ g1 g2, g1 < 5 → g2 < 5 →
      get_tracklet_frame_id [2, 3] g1 = get_tracklet_frame_id [2, 3] g2 → g1 = g2) ∧
    (∀ t f m, ([2, 3] : List Nat)[t]? = some m → f < m →
      ∃ g, g < 5 ∧ get_tracklet_frame_id [2, 3] g = some (t, f))) :=
  ⟨by decide, by decide, c1_resolve_bijection [2, 3] (by decide) 5 (by decide)⟩

/-! ## Supporting lemmas on slices -/

theorem strideAux_shift (m : Nat) : ∀ (c : Nat) (l : List α),
    strideAux c m l = strideAux 0 m (l.drop c) := by
  intro c
  induction c with
  | zero => intro l; simp
  | succ c2 ih =>
    intro l
    cases l with
    | nil => simp [strideAux]
    | cons a rest =>
      show strideAux c2 m rest = strideAux 0 m (rest.drop c2)
      exact ih rest

theorem pyslice_nil (p k : Nat) : pyslice ([] : List α) p k = [] := by
  simp [pyslice, strideAux]

theorem pyslice_cons_zero (a : α) (t : List α) (k : Nat) :
    pyslice (a :: t) 0 k = a :: pyslice t (k - 1) k := by
  show strideAux 0 (k - 1) (a :: t) = a :: pyslice t (k - 1) k
  rw [show strideAux 0 (k - 1) (a :: t) = a :: strideAux (k - 1) (k - 1) t from rfl]
  rw [strideAux_shift]
  rfl

theorem pyslice_cons_succ (a : α) (t : List α) (p k : Nat) :
    pyslice (a :: t) (p + 1) k = pyslice t p k := by
  simp [pyslice]

theorem pyslice_eq_nil_of_le (l : List α) (p k : Nat) (h : l.length ≤ p) :
    pyslice l p k = [] := by
  have h2 : l.drop p = [] := List.drop_eq_nil_of_le h
  simp [pyslice, h2, strideAux]

theorem pyslice_stride_one (l : List α) : pyslice l 0 1 = l := by
  induction l with
  | nil => exact pyslice_nil 0 1
  | cons a t ih =>
    rw [pyslice_cons_zero]
    simpa using ih

theorem flatten_range_pyslice (m : Nat) (g : List α) :
    (((List.range (m + 1)).map (fun p => pyslice g p (m + 1))).flatten).Perm g := by
  induction g with
  | nil =>
    have h : (List.range (m + 1)).map (fun p => pyslice ([] : List α) p (m + 1))
        = (List.range (m + 1)).map (fun _ => []) := by
      simp [pyslice_nil]
    rw [h]
    simp [List.flatten_eq_nil_iff]
  | cons a t ih =>
    have hmap : (List.range (m + 1)).map (fun p => pyslice (a :: t) p (m + 1))
        = (a :: pyslice t m (m + 1)) ::
          (List.range m).map (fun p => pyslice t p (m + 1)) := by
      rw [List.range_succ_eq_map]
      simp [pyslice_cons_succ, pyslice_cons_zero, Function.comp_def]
    have hih2 : ((((List.range m).map (fun p => pyslice t p (m + 1))).flatten)
        ++ pyslice t m (m + 1)).Perm t := by
      have h3 := ih
      rw [List.range_succ, List.map_append, List.flatten_append] at h3
      simpa using h3
    rw [hmap]
    simp only [List.flatten_cons, List.cons_append]
    apply List.Perm.cons
    exact (List.perm_append_comm).trans hih2

theorem flatten_range_eq_of_nil_tail (f : Nat → List α) :
    ∀ k m, m ≤ k → (∀ p, m ≤ p → p < k → f p = []) →
      ((List.range k).map f).flatten = ((List.range m).map f).flatten := by
  intro k
  induction k with
  | zero =>
    intro m hm _
    have : m = 0 := by omega
    rw [this]
  | succ j ih =>
    intro m hm hnil
    rcases Nat.eq_or_lt_of_le hm with he | hlt
    · rw [he]
    · have hm2 : m ≤ j := by omega
      rw [List.range_succ, List.map_append, List.flatten_append]
      simp only [List.map_cons, List.map_nil, List.flatten_cons, List.flatten_nil,
        List.append_nil, hnil j hm2 (by omega)]
      exact ih m hm2 (fun p hp1 hp2 => hnil p hp1 (by omega))

theorem flatten_fixedInterval_perm (g : List α) (k : Nat) (hk : 1 ≤ k) :
    ((fixedIntervalTracklets g k).flatten).Perm g := by
  obtain ⟨m, rfl⟩ : ∃ m, k = m + 1 := ⟨k - 1, by omega⟩
  rcases le_or_lt (m + 1) g.length with h | h
  · have hmin : min g.length (m + 1) = m + 1 := by omega
    rw [fixedIntervalTracklets, hmin]
    exact flatten_range_pyslice m g
  · have hmin : min g.length (m + 1) = g.length := by omega
    have hext := flatten_range_eq_of_nil_tail (fun p => pyslice g p (m + 1))
      (m + 1) g.length (by omega)
      (fun p hp1 _ => pyslice_eq_nil_of_le g p (m + 1) hp1)
    rw [fixedIntervalTracklets, hmin, ← hext]
    exact flatten_range_pyslice m g

/-! ## Claim theorems: subsampling -/

/-- C3: fixed-interval subsampling of a group with stride k emits exactly
min(len, k) tracklets, the one at phase p being the slice group[p::k]; the
emitted phase slices together form a permutation of the group (pairwise
disjoint and jointly covering every record), and with k = 1 a nonempty group
yields exactly one tracklet equal to the group itself. -/
theorem c3_fixed_interval {α : Type*} (g : List α) (k : Nat) (hk : 1 ≤ k) :
    (fixedIntervalTracklets g k).length = min g.length k ∧
    (∀ p, p < min g.length k →
      (fixedIntervalTracklets g k)[p]? = some (pyslice g p k)) ∧
    ((fixedIntervalTracklets g k).flatten).Perm g ∧
    (g ≠ [] → fixedIntervalTracklets g 1 = [g]) := by
  refine ⟨by simp [fixedIntervalTracklets], ?_, flatten_fixedInterval_perm g k hk, ?_⟩
  · intro p hp
    simp [fixedIntervalTracklets, hp]
  · intro hne
    have hL : 0 < g.length := List.length_pos.mpr hne
    have hmin : min g.length 1 = 1 := by omega
    have h1 : List.range 1 = [0] := by
      rw [List.range_succ]
      simp
    rw [fixedIntervalTracklets, hmin, h1, List.map_cons, List.map_nil,
      pyslice_stride_one]

/-- C3 witness at the concrete 7-record group [0, ..., 6] with stride 3. -/
theorem c3_fixed_interval_witness :
    1 ≤ 3 ∧
    ((fixedIntervalTracklets ([0, 1, 2, 3, 4, 5, 6] : List Nat) 3).length
        = min ([0, 1, 2, 3, 4, 5, 6] : List Nat).length 3 ∧
    (∀ p, p < min ([0, 1, 2, 3, 4, 5, 6] : List Nat).length 3 →
      (fixedIntervalTracklets ([0, 1, 2, 3, 4, 5, 6] : List Nat) 3)[p]?
        = some (pyslice [0, 1, 2, 3, 4, 5, 6] p 3)) ∧
    ((fixedIntervalTracklets ([0, 1, 2, 3, 4, 5, 6] : List Nat) 3).flatten).Perm
      [0, 1, 2, 3, 4, 5, 6] ∧
    (([0, 1, 2, 3, 4, 5, 6] : List Nat) ≠ [] →
      fixedIntervalTracklets ([0, 1, 2, 3, 4, 5, 6] : List Nat) 1
        = [[0, 1, 2, 3, 4, 5, 6]])) :=
  ⟨by decide, c3_fixed_interval [0, 1, 2, 3, 4, 5, 6] 3 (by decide)⟩

/-- C4: in exhaustive mode ("all") the indexer applies the fixed-interval
procedure once per interval of the role-dependent interval list and
concatenates the results in that order; the train role uses the intervals
1, 2, 3, 5, 10 and every other role the single interval 5. -/
theorem c4_exhaustive_mode {α : Type*} (split : String) (g : List α) :
    subsampleAll split g
      = ((exhaustiveIntervals split).map (fun k => fixedIntervalTracklets g k)).flatten := by
  by_cases h : split = "train"
  · simp [subsampleAll, exhaustiveIntervals, h, fixedIntervalTracklets]
  · simp [subsampleAll, exhaustiveIntervals, h, fixedIntervalTracklets]

/-! ## Supporting lemmas on the homogeneous transform -/

theorem mul_inv4_mulVec (M : Mat4) (h : M.det ≠ 0) (v : Fin 4 → ℚ) :
    M.mulVec ((inv4 M).mulVec v) = v := by
  rw [Matrix.mulVec_mulVec]
  have h1 : M * inv4 M = 1 := by
    rw [inv4, Matrix.mul_smul, Matrix.mul_adjugate, smul_smul,
      inv_mul_cancel₀ h, one_smul]
  rw [h1, Matrix.one_mulVec]

theorem vstack_homog_mulVec_last (tr : Matrix (Fin 3) (Fin 4) ℚ) (w : Fin 4 → ℚ) :
    (vstack_homog tr).mulVec w 3 = w 3 := by
  have h3 : ¬ (((3 : Fin 4) : Nat) < 3) := by decide
  have e0 : ¬ ((0 : Fin 4) = 3) := by decide
  have e1 : ¬ ((1 : Fin 4) = 3) := by decide
  have e2 : ¬ ((2 : Fin 4) = 3) := by decide
  simp [vstack_homog, Matrix.mulVec, Matrix.dotProduct, Fin.sum_univ_four,
    h3, e0, e1, e2]

theorem build_frame_total (tf : Mat4 → PCloud → PCloud) (mode : CoordinateMode)
    (tr : Matrix (Fin 3) (Fin 4) ℚ) (anno : FrameAnno) (raw : RawPcd)
    (h : mode = CoordinateMode.velodyne → (vstack_homog tr).det ≠ 0) :
    ∃ fr, build_frame tf mode tr anno raw = some fr ∧
      fr.pcd = load_pcd tf mode (vstack_homog tr) raw ∧ fr.anno = anno := by
  cases mode with
  | camera =>
    exact ⟨{ pcd := load_pcd tf CoordinateMode.camera (vstack_homog tr) raw,
             bbox := { center := ⟨anno.x, anno.y - anno.height / 2, anno.z⟩,
                       wlh := ⟨anno.width, anno.length, anno.height⟩,
                       orientation := [⟨0, 1, 0, AngleSpec.radians anno.rotation_y⟩,
                                       ⟨1, 0, 0, AngleSpec.radiansPiDiv2⟩] },
             anno := anno }, rfl, rfl, rfl⟩
  | velodyne =>
    have hd := h rfl
    have hbb : build_bbox CoordinateMode.velodyne tr anno
        = some { center := ⟨(inv4 (vstack_homog tr)).mulVec ![anno.x, anno.y - anno.height / 2, anno.z, 1] 0, (inv4 (vstack_homog tr)).mulVec ![anno.x, anno.y - anno.height / 2, anno.z, 1] 1, (inv4 (vstack_homog tr)).mulVec ![anno.x, anno.y - anno.height / 2, anno.z, 1] 2⟩,
                 wlh := ⟨anno.width, anno.length, anno.height⟩,
                 orientation := [⟨0, 0, -1, AngleSpec.radians anno.rotation_y⟩,
                                 ⟨0, 0, -1, AngleSpec.degrees 90⟩] } := by
      rw [build_bbox, if_neg hd]
    rw [build_frame, hbb]
    exact ⟨_, rfl, rfl, rfl⟩

theorem build_frames_total (tf : Mat4 → PCloud → PCloud) (mode : CoordinateMode)
    (tr : Matrix (Fin 3) (Fin 4) ℚ)
    (h : mode = CoordinateMode.velodyne → (vstack_homog tr).det ≠ 0) :
    ∀ inputs : List (FrameAnno × RawPcd), ∃ frs,
      build_frames tf mode tr inputs = some frs ∧ frs.length = inputs.length := by
  intro inputs
  induction inputs with
  | nil => exact ⟨[], rfl, rfl⟩
  | cons input rest ih =>
    obtain ⟨fr, hfr, -, -⟩ := build_frame_total tf mode tr input.1 input.2 h
    obtain ⟨frs, hfrs, hlen⟩ := ih
    refine ⟨fr :: frs, ?_, by simp [hlen]⟩
    rw [show build_frames tf mode tr (input :: rest)
        = match build_frame tf mode tr input.1 input.2, build_frames tf mode tr rest with
          | some fr2, some frs2 => some (fr2 :: frs2)
          | _, _ => none from rfl]
    rw [hfr, hfrs]

theorem build_frames_get (tf : Mat4 → PCloud → PCloud) (mode : CoordinateMode)
    (tr : Matrix (Fin 3) (Fin 4) ℚ) :
    ∀ (inputs : List (FrameAnno × RawPcd)) (frames : List Frame),
      build_frames tf mode tr inputs = some frames →
      ∀ (i : Nat) (inp : FrameAnno × RawPcd), inputs[i]? = some inp →
        frames[i]? = build_frame tf mode tr inp.1 inp.2 := by
  intro inputs
  induction inputs with
  | nil =>
    intro frames _ i inp hinp
    simp at hinp
  | cons input rest ih =>
    intro frames hframes i inp hinp
    rcases hbf : build_frame tf mode tr input.1 input.2 with _ | fr
    · rw [show build_frames tf mode tr (input :: rest)
          = match build_frame tf mode tr input.1 input.2, build_frames tf mode tr rest with
            | some fr2, some frs2 => some (fr2 :: frs2)
            | _, _ => none from rfl, hbf] at hframes
      exact absurd hframes (by simp)
    · rcases hbfs : build_frames tf mode tr rest with _ | frs
      · rw [show build_frames tf mode tr (input :: rest)
            = match build_frame tf mode tr input.1 input.2, build_frames tf mode tr rest with
              | some fr2, some frs2 => some (fr2 :: frs2)
              | _, _ => none from rfl, hbf, hbfs] at hframes
        exact absurd hframes (by simp)
      · rw [show build_frames tf mode tr (input :: rest)
            = match build_frame tf mode tr input.1 input.2, build_frames tf mode tr rest with
              | some fr2, some frs2 => some (fr2 :: frs2)
              | _, _ => none from rfl, hbf, hbfs] at hframes
        have hfe : frames = fr :: frs := (Option.some.inj hframes).symm
        subst hfe
        cases i with
        | zero =>
          have : input = inp := by simpa using hinp
          subst this
          simp [hbf]
        | succ j =>
          have hj : rest[j]? = some inp := by simpa using hinp
          have := ih frs hbfs j inp hj
          simpa using this

/-! ## Claim theorems: frame building and error handling -/

/-- C5: for a record whose point-cloud file is missing or unreadable the
frame build does not raise but returns a frame whose point cloud is the
single-point placeholder at the origin, and the construction loop runs past
such records, building one frame per record. -/
theorem c5_missing_pcd_placeholder (tf : Mat4 → PCloud → PCloud)
    (mode : CoordinateMode) (tr : Matrix (Fin 3) (Fin 4) ℚ) (anno : FrameAnno)
    (h : mode = CoordinateMode.velodyne → (vstack_homog tr).det ≠ 0) :
    (∃ fr, build_frame tf mode tr anno RawPcd.missing = some fr ∧
      fr.pcd = placeholder_pcd) ∧
    (∀ inputs : List (FrameAnno × RawPcd), ∃ frs,
      build_frames tf mode tr inputs = some frs ∧ frs.length = inputs.length) := by
  refine ⟨?_, build_frames_total tf mode tr h⟩
  obtain ⟨fr, hfr, hpcd, -⟩ := build_frame_total tf mode tr anno RawPcd.missing h
  exact ⟨fr, hfr, hpcd⟩

/-- C5 witness: camera mode, identity-like calibration, missing file. -/
theorem c5_missing_pcd_placeholder_witness :
    (∃ fr, build_frame (fun _ p => p) CoordinateMode.camera trId anno0
        RawPcd.missing = some fr ∧ fr.pcd = placeholder_pcd) ∧
    (∀ inputs : List (FrameAnno × RawPcd), ∃ frs,
      build_frames (fun _ p => p) CoordinateMode.camera trId inputs = some frs ∧
        frs.length = inputs.length) :=
  c5_missing_pcd_placeholder (fun _ p => p) CoordinateMode.camera trId anno0
    (fun hc => absurd hc (by decide))

/-- C10: the point-cloud fallback fires on any failure of the try block, not
only a missing file: a missing buffer or a buffer length not divisible by 4
both yield the placeholder, for every transform routine and matrix (so the
placeholder is never transformed); a successful load is transformed exactly
in camera mode; the placeholder has three rows holding the single origin
point and no intensity row. -/
theorem c10_try_block_fallback (tf : Mat4 → PCloud → PCloud)
    (mode : CoordinateMode) (M : Mat4) :
    load_pcd tf mode M RawPcd.missing = placeholder_pcd ∧
    (∀ data : List ℚ, data.length % 4 ≠ 0 →
      load_pcd tf mode M (RawPcd.bytes data) = placeholder_pcd) ∧
    (∀ data : List ℚ, data.length % 4 = 0 → mode = CoordinateMode.camera →
      load_pcd tf mode M (RawPcd.bytes data) = tf M (reshapeT data)) ∧
    (∀ data : List ℚ, data.length % 4 = 0 → mode = CoordinateMode.velodyne →
      load_pcd tf mode M (RawPcd.bytes data) = reshapeT data) ∧
    placeholder_pcd.length = 3 ∧ (∀ row ∈ placeholder_pcd, row = [(0 : ℚ)]) := by
  refine ⟨rfl, ?_, ?_, ?_, rfl, by decide⟩
  · intro data hdata
    simp only [load_pcd, if_neg hdata]
  · rintro data hdata rfl
    simp only [load_pcd, if_pos hdata]
  · rintro data hdata rfl
    simp only [load_pcd, if_pos hdata]

/-- C10 witness: a 3-float buffer (not divisible by 4) falls back to the
placeholder under a nontrivial transform routine. -/
theorem c10_try_block_fallback_witness :
    load_pcd (fun _ p => [] :: p) CoordinateMode.camera 1 RawPcd.missing
        = placeholder_pcd ∧
    (∀ data : List ℚ, data.length % 4 ≠ 0 →
      load_pcd (fun _ p => [] :: p) CoordinateMode.camera 1 (RawPcd.bytes data)
        = placeholder_pcd) ∧
    (∀ data : List ℚ, data.length % 4 = 0 →
        CoordinateMode.camera = CoordinateMode.camera →
      load_pcd (fun _ p => [] :: p) CoordinateMode.camera 1 (RawPcd.bytes data)
        = (fun (_ : Mat4) p => [] :: p) 1 (reshapeT data)) ∧
    (∀ data : List ℚ, data.length % 4 = 0 →
        CoordinateMode.camera = CoordinateMode.velodyne →
      load_pcd (fun _ p => [] :: p) CoordinateMode.camera 1 (RawPcd.bytes data)
        = reshapeT data) ∧
    placeholder_pcd.length = 3 ∧ (∀ row ∈ placeholder_pcd, row = [(0 : ℚ)]) :=
  c10_try_block_fallback (fun _ p => [] :: p) CoordinateMode.camera 1

/-! ## Claim theorems: coordinate transform of the bounding box -/

/-- C6: the camera-mode box center is (x, y - height/2, z) with extents
(width, length, height); the sensor-mode box keeps the extents and its
center is the inverse sensor-to-camera matrix applied to the homogeneous
camera center, hence the sensor-to-camera matrix carries the homogeneous
sensor-mode center back to the homogeneous camera-mode center. -/
theorem c6_bbox_transform (tf : Mat4 → PCloud → PCloud)
    (tr : Matrix (Fin 3) (Fin 4) ℚ) (anno : FrameAnno) (raw : RawPcd)
    (h : (vstack_homog tr).det ≠ 0) :
    ∃ fc fv, build_frame tf CoordinateMode.camera tr anno raw = some fc ∧
      build_frame tf CoordinateMode.velodyne tr anno raw = some fv ∧
      fc.bbox.center = ⟨anno.x, anno.y - anno.height / 2, anno.z⟩ ∧
      fc.bbox.wlh = ⟨anno.width, anno.length, anno.height⟩ ∧
      fv.bbox.wlh = fc.bbox.wlh ∧
      fv.bbox.center = ⟨(inv4 (vstack_homog tr)).mulVec ![anno.x, anno.y - anno.height / 2, anno.z, 1] 0, (inv4 (vstack_homog tr)).mulVec ![anno.x, anno.y - anno.height / 2, anno.z, 1] 1, (inv4 (vstack_homog tr)).mulVec ![anno.x, anno.y - anno.height / 2, anno.z, 1] 2⟩ ∧
      (vstack_homog tr).mulVec ![fv.bbox.center.x, fv.bbox.center.y, fv.bbox.center.z, 1] = ![fc.bbox.center.x, fc.bbox.center.y, fc.bbox.center.z, 1] := by
  have hMc : (vstack_homog tr).mulVec ((inv4 (vstack_homog tr)).mulVec ![anno.x, anno.y - anno.height / 2, anno.z, 1]) = ![anno.x, anno.y - anno.height / 2, anno.z, 1] :=
    mul_inv4_mulVec (vstack_homog tr) h ![anno.x, anno.y - anno.height / 2, anno.z, 1]
  have hc3 : (inv4 (vstack_homog tr)).mulVec ![anno.x, anno.y - anno.height / 2, anno.z, 1] 3 = 1 := by
    have h1 := vstack_homog_mulVec_last tr
      ((inv4 (vstack_homog tr)).mulVec ![anno.x, anno.y - anno.height / 2, anno.z, 1])
    rw [hMc] at h1
    rw [← h1]
    simp [Matrix.cons_val_three, Matrix.vecHead, Matrix.vecTail]
  have hvec : (![(inv4 (vstack_homog tr)).mulVec ![anno.x, anno.y - anno.height / 2, anno.z, 1] 0, (inv4 (vstack_homog tr)).mulVec ![anno.x, anno.y - anno.height / 2, anno.z, 1] 1, (inv4 (vstack_homog tr)).mulVec ![anno.x, anno.y - anno.height / 2, anno.z, 1] 2, 1] : Fin 4 → ℚ)
      = (inv4 (vstack_homog tr)).mulVec ![anno.x, anno.y - anno.height / 2, anno.z, 1] := by
    funext i
    fin_cases i <;>
      simp [Matrix.cons_val_three, Matrix.vecHead, Matrix.vecTail, hc3]
  have hbb : build_bbox CoordinateMode.velodyne tr anno
      = some { center := ⟨(inv4 (vstack_homog tr)).mulVec ![anno.x, anno.y - anno.height / 2, anno.z, 1] 0, (inv4 (vstack_homog tr)).mulVec ![anno.x, anno.y - anno.height / 2, anno.z, 1] 1, (inv4 (vstack_homog tr)).mulVec ![anno.x, anno.y - anno.height / 2, anno.z, 1] 2⟩,
               wlh := ⟨anno.width, anno.length, anno.height⟩,
               orientation := [⟨0, 0, -1, AngleSpec.radians anno.rotation_y⟩,
                               ⟨0, 0, -1, AngleSpec.degrees 90⟩] } := by
    rw [build_bbox, if_neg h]
  have hfv : build_frame tf CoordinateMode.velodyne tr anno raw
      = some { pcd := load_pcd tf CoordinateMode.velodyne (vstack_homog tr) raw,
               bbox :=
                 { center := ⟨(inv4 (vstack_homog tr)).mulVec ![anno.x, anno.y - anno.height / 2, anno.z, 1] 0, (inv4 (vstack_homog tr)).mulVec ![anno.x, anno.y - anno.height / 2, anno.z, 1] 1, (inv4 (vstack_homog tr)).mulVec ![anno.x, anno.y - anno.height / 2, anno.z, 1] 2⟩,
                   wlh := ⟨anno.width, anno.length, anno.height⟩,
                   orientation := [⟨0, 0, -1, AngleSpec.radians anno.rotation_y⟩,
                                   ⟨0, 0, -1, AngleSpec.degrees 90⟩] },
               anno := anno } := by
    rw [build_frame, hbb]
  refine ⟨_, _, rfl, hfv, rfl, rfl, rfl, rfl, ?_⟩
  show (vstack_homog tr).mulVec ![(inv4 (vstack_homog tr)).mulVec ![anno.x, anno.y - anno.height / 2, anno.z, 1] 0, (inv4 (vstack_homog tr)).mulVec ![anno.x, anno.y - anno.height / 2, anno.z, 1] 1, (inv4 (vstack_homog tr)).mulVec ![anno.x, anno.y - anno.height / 2, anno.z, 1] 2, 1] = ![anno.x, anno.y - anno.height / 2, anno.z, 1]
  rw [hvec, hMc]

/-- C6 witness: the identity-like calibration matrix and a concrete record
with rotation_y = 0. -/
theorem c6_bbox_transform_witness :
    (vstack_homog trId).det ≠ 0 ∧
    (∃ fc fv, build_frame (fun _ p => p) CoordinateMode.camera trId anno0
        RawPcd.missing = some fc ∧
      build_frame (fun _ p => p) CoordinateMode.velodyne trId anno0
        RawPcd.missing = some fv ∧
      fc.bbox.center = ⟨anno0.x, anno0.y - anno0.height / 2, anno0.z⟩ ∧
      fc.bbox.wlh = ⟨anno0.width, anno0.length, anno0.height⟩ ∧
      fv.bbox.wlh = fc.bbox.wlh ∧
      fv.bbox.center = ⟨(inv4 (vstack_homog trId)).mulVec ![anno0.x, anno0.y - anno0.height / 2, anno0.z, 1] 0, (inv4 (vstack_homog trId)).mulVec ![anno0.x, anno0.y - anno0.height / 2, anno0.z, 1] 1, (inv4 (vstack_homog trId)).mulVec ![anno0.x, anno0.y - anno0.height / 2, anno0.z, 1] 2⟩ ∧
      (vstack_homog trId).mulVec ![fv.bbox.center.x, fv.bbox.center.y, fv.bbox.center.z, 1] = ![fc.bbox.center.x, fc.bbox.center.y, fc.bbox.center.z, 1]) := by
  have h1 : vstack_homog trId = 1 := by decide
  have hdet : (vstack_homog trId).det ≠ 0 := by
    rw [h1, Matrix.det_one]
    norm_num
  exact ⟨hdet,
    c6_bbox_transform (fun _ p => p) trId anno0 RawPcd.missing hdet⟩

/-! ## Claim theorems: caching, cropping and split-dependent crop offset -/

/-- C7: under one fixed configuration, the frame the cached branch of
get_frame returns from the materialization equals the frame the uncached
branch builds on demand with the same optional crop step; in particular the
cache-miss materialization succeeds whenever frame building cannot raise. -/
theorem c7_cache_equivalence (tf : Mat4 → PCloud → PCloud)
    (crop : PCloud → BoundingBox → ℚ → PCloud)
    (merge : List PCloud → List BoundingBox → ℚ → ℚ → PCloud)
    (mode : CoordinateMode) (tr : Matrix (Fin 3) (Fin 4) ℚ)
    (mo ms off : ℚ) (inputs : List (FrameAnno × RawPcd)) (fid : Nat)
    (inp : FrameAnno × RawPcd) (h1 : inputs[fid]? = some inp)
    (h2 : mode = CoordinateMode.velodyne → (vstack_homog tr).det ≠ 0) :
    ∃ mat, build_tracklet tf crop merge mode tr mo ms off inputs = some mat ∧
      get_frame_cached mat fid = get_frame_uncached tf crop mode tr off inp := by
  obtain ⟨frames, hbfs, hlen⟩ := build_frames_total tf mode tr h2 inputs
  have hfid : fid < inputs.length := (List.getElem?_eq_some_iff.mp h1).1
  obtain ⟨fr, hfr⟩ : ∃ fr, frames[fid]? = some fr := by
    have : fid < frames.length := by omega
    exact ⟨frames[fid], List.getElem?_eq_getElem this⟩
  have hbf : build_frame tf mode tr inp.1 inp.2 = some fr := by
    rw [← build_frames_get tf mode tr inputs frames hbfs fid inp h1, hfr]
  by_cases hoff : 0 < off
  · have hbt : build_tracklet tf crop merge mode tr mo ms off inputs
        = some ⟨merge (frames.map (fun fr2 => fr2.pcd)) (frames.map (fun fr2 => fr2.bbox)) mo ms, frames.map (fun fr2 => { fr2 with pcd := crop fr2.pcd fr2.bbox off })⟩ := by
      simp only [build_tracklet, hbfs, if_pos hoff]
    refine ⟨_, hbt, ?_⟩
    show (frames.map (fun fr2 => { fr2 with pcd := crop fr2.pcd fr2.bbox off }))[fid]?
        = get_frame_uncached tf crop mode tr off inp
    rw [get_frame_uncached, hbf, List.getElem?_map, hfr]
    simp only [if_pos hoff]
    rfl
  · have hbt : build_tracklet tf crop merge mode tr mo ms off inputs
        = some ⟨merge (frames.map (fun fr2 => fr2.pcd)) (frames.map (fun fr2 => fr2.bbox)) mo ms, frames⟩ := by
      simp only [build_tracklet, hbfs, if_neg hoff]
    refine ⟨_, hbt, ?_⟩
    show frames[fid]? = get_frame_uncached tf crop mode tr off inp
    rw [get_frame_uncached, hbf, hfr]
    simp only [if_neg hoff]

/-- C7 witness: a one-record tracklet, camera mode, crop disabled. -/
theorem c7_cache_equivalence_witness :
    ∃ mat, build_tracklet (fun _ p => p) (fun p _ _ => p) (fun _ _ _ _ => [])
        CoordinateMode.camera trId 0 1 (-1) [(anno0, RawPcd.missing)] = some mat ∧
      get_frame_cached mat 0
        = get_frame_uncached (fun _ p => p) (fun p _ _ => p) CoordinateMode.camera
            trId (-1) (anno0, RawPcd.missing) :=
  c7_cache_equivalence (fun _ p => p) (fun p _ _ => p) (fun _ _ _ _ => [])
    CoordinateMode.camera trId 0 1 (-1) [(anno0, RawPcd.missing)] 0
    (anno0, RawPcd.missing) rfl (fun hc => absurd hc (by decide))

/-- C8: in the cache-miss materialization the template point cloud is merged
from the uncropped per-frame point clouds, and when a positive crop offset
is configured the stored frames are exactly the built frames with their
point clouds replaced by the cropped versions afterwards: the merge input is
never the cropped clouds. -/
theorem c8_template_merged_before_crop (tf : Mat4 → PCloud → PCloud)
    (crop : PCloud → BoundingBox → ℚ → PCloud)
    (merge : List PCloud → List BoundingBox → ℚ → ℚ → PCloud)
    (mode : CoordinateMode) (tr : Matrix (Fin 3) (Fin 4) ℚ)
    (mo ms off : ℚ) (inputs : List (FrameAnno × RawPcd)) (hoff : 0 < off)
    (h2 : mode = CoordinateMode.velodyne → (vstack_homog tr).det ≠ 0) :
    ∃ mat frames, build_tracklet tf crop merge mode tr mo ms off inputs = some mat ∧
      build_frames tf mode tr inputs = some frames ∧
      mat.comp_template_pcd
        = merge (frames.map (fun fr => fr.pcd)) (frames.map (fun fr => fr.bbox)) mo ms ∧
      mat.frames = frames.map (fun fr => { fr with pcd := crop fr.pcd fr.bbox off }) := by
  obtain ⟨frames, hbfs, -⟩ := build_frames_total tf mode tr h2 inputs
  have hbt : build_tracklet tf crop merge mode tr mo ms off inputs
      = some ⟨merge (frames.map (fun fr2 => fr2.pcd)) (frames.map (fun fr2 => fr2.bbox)) mo ms, frames.map (fun fr2 => { fr2 with pcd := crop fr2.pcd fr2.bbox off })⟩ := by
    simp only [build_tracklet, hbfs, if_pos hoff]
  exact ⟨_, frames, hbt, hbfs, rfl, rfl⟩

/-- C8 witness: a one-record tracklet with crop offset 1. -/
theorem c8_template_merged_before_crop_witness :
    ∃ mat frames, build_tracklet (fun _ p => p) (fun p _ _ => p)
        (fun _ _ _ _ => []) CoordinateMode.camera trId 0 1 1
        [(anno0, RawPcd.missing)] = some mat ∧
      build_frames (fun _ p => p) CoordinateMode.camera trId
        [(anno0, RawPcd.missing)] = some frames ∧
      mat.comp_template_pcd
        = (fun (_ : List PCloud) (_ : List BoundingBox) (_ : ℚ) (_ : ℚ) => ([] : PCloud))
            (frames.map (fun fr => fr.pcd)) (frames.map (fun fr => fr.bbox)) 0 1 ∧
      mat.frames = frames.map (fun fr =>
        { fr with pcd := (fun p (_ : BoundingBox) (_ : ℚ) => p) fr.pcd fr.bbox 1 }) :=
  c8_template_merged_before_crop (fun _ p => p) (fun p _ _ => p) (fun _ _ _ _ => [])
    CoordinateMode.camera trId 0 1 1 [(anno0, RawPcd.missing)] (by norm_num)
    (fun hc => absurd hc (by decide))

/-- C9: for every split other than train the dataset forces its crop offset
to -1 whatever offset the configuration holds, so neither the cache-miss
materialization nor the on-demand get_frame branch ever crops a point
cloud. -/
theorem c9_no_crop_outside_train (split : String) (hsplit : split ≠ "train")
    (c : ℚ) (tf : Mat4 → PCloud → PCloud)
    (crop : PCloud → BoundingBox → ℚ → PCloud)
    (merge : List PCloud → List BoundingBox → ℚ → ℚ → PCloud)
    (mode : CoordinateMode) (tr : Matrix (Fin 3) (Fin 4) ℚ) (mo ms : ℚ)
    (inputs : List (FrameAnno × RawPcd)) (inp : FrameAnno × RawPcd)
    (mat : TrackletMat) :
    preload_offset_eff split c = -1 ∧
    (build_tracklet tf crop merge mode tr mo ms (preload_offset_eff split c) inputs
        = some mat → build_frames tf mode tr inputs = some mat.frames) ∧
    get_frame_uncached tf crop mode tr (preload_offset_eff split c) inp
      = build_frame tf mode tr inp.1 inp.2 := by
  have hoff : preload_offset_eff split c = -1 := by
    rw [preload_offset_eff, if_neg hsplit]
  have hneg : ¬ (0 : ℚ) < preload_offset_eff split c := by
    rw [hoff]
    norm_num
  refine ⟨hoff, ?_, ?_⟩
  · intro hbt
    rcases hbfs : build_frames tf mode tr inputs with _ | frames
    · rw [build_tracklet, hbfs] at hbt
      exact absurd hbt (by simp)
    · rw [build_tracklet, hbfs] at hbt
      simp only [if_neg hneg] at hbt
      have hmat : (⟨merge (frames.map (fun fr2 => fr2.pcd)) (frames.map (fun fr2 => fr2.bbox)) mo ms, frames⟩ : TrackletMat) = mat :=
        Option.some.inj hbt
      rw [← hmat]
  · rcases hbf : build_frame tf mode tr inp.1 inp.2 with _ | fr
    · rw [get_frame_uncached, hbf]
    · rw [get_frame_uncached, hbf]
      simp only [if_neg hneg]

/-- C9 witness: the val split with configured offset 3 on a one-record
tracklet. -/
theorem c9_no_crop_outside_train_witness :
    preload_offset_eff "val" 3 = -1 ∧
    (build_tracklet (fun _ p => p) (fun p _ _ => p) (fun _ _ _ _ => [])
        CoordinateMode.camera trId 0 1 (preload_offset_eff "val" 3)
        [(anno0, RawPcd.missing)]
        = some ⟨[], [frame0]⟩ →
      build_frames (fun _ p => p) CoordinateMode.camera trId
          [(anno0, RawPcd.missing)]
        = some ((⟨[], [frame0]⟩ : TrackletMat).frames)) ∧
    get_frame_uncached (fun _ p => p) (fun p _ _ => p) CoordinateMode.camera trId
        (preload_offset_eff "val" 3) (anno0, RawPcd.missing)
      = build_frame (fun _ p => p) CoordinateMode.camera trId anno0 RawPcd.missing :=
  c9_no_crop_outside_train "val" (by decide) 3 (fun _ p => p) (fun p _ _ => p)
    (fun _ _ _ _ => []) CoordinateMode.camera trId 0 1 [(anno0, RawPcd.missing)]
    (anno0, RawPcd.missing) ⟨[], [frame0]⟩

end HVTrack
